import Mathlib

/-!
Shallow embedding of the receipt-field extractor `parseReceipt` from
`backend/server.js` (the only non-trivial logic of the repository), together
with theorems settling the specification claims about it.

Strings are modelled as `List Char`.  JavaScript regular-expression matching
is embedded by hand for the five fixed regexes the function uses, with the
engine's leftmost-first, greedy-with-backtracking semantics.  Amounts are
modelled as `ℚ` (the numeric tokens involved are short decimal literals, so
`parseFloat` is exact on them up to the usual reading of a decimal literal).
-/

/-- JavaScript `\s` character class (also the character set removed by
`String.prototype.trim`): space, tab, LF, VT, FF, CR, NBSP, and the Unicode
space separators plus line/paragraph separators and BOM. -/
def isWsC (c : Char) : Bool :=
  let n := c.toNat
  n == 9 || n == 10 || n == 11 || n == 12 || n == 13 || n == 32 ||
  n == 0xA0 || n == 0x1680 || (decide (0x2000 ≤ n) && decide (n ≤ 0x200A)) ||
  n == 0x2028 || n == 0x2029 || n == 0x202F || n == 0x205F ||
  n == 0x3000 || n == 0xFEFF

/-- JavaScript `\w` character class: ASCII letters, digits, underscore. -/
def isWordC (c : Char) : Bool :=
  c.isAlpha || c.isDigit || c == '_'

/-- Case folding used by the `i` flag on the ASCII-only patterns of the
source: lower-case the ASCII letters, leave everything else alone (in
non-Unicode mode a non-ASCII character never canonicalizes to ASCII, so this
is faithful for the ASCII-only pattern terms involved). `Char.toLower` is
exactly this ASCII mapping. -/
def foldC (c : Char) : Char := c.toLower

/-- `text.split(/\r?\n/)`: split on each LF, consuming an immediately
preceding CR with it; a lone CR is not a separator. -/
def splitLines : List Char → List (List Char)
  | [] => [[]]
  | '\r' :: '\n' :: rest => [] :: splitLines rest
  | '\n' :: rest => [] :: splitLines rest
  | c :: rest =>
    match splitLines rest with
    | [] => [[c]]
    | l :: ls => (c :: l) :: ls

/-- `s.trim()`: drop JS whitespace from both ends. -/
def trimL (s : List Char) : List Char :=
  ((s.dropWhile isWsC).reverse.dropWhile isWsC).reverse

/-- Line normalization of `parseReceipt` (line 67 of server.js):
`text.split(/\r?\n/).map(s => s.trim()).filter(Boolean)`. -/
def normLines (text : List Char) : List (List Char) :=
  ((splitLines text).map trimL).filter (fun l => !l.isEmpty)

/-- Substring containment: `containsL pat s` holds iff `pat` occurs
contiguously inside `s` (the semantics of `re.test` for a literal pattern). -/
def containsL (pat : List Char) : List Char → Bool
  | [] => pat.isEmpty
  | c :: t => pat.isPrefixOf (c :: t) || containsL pat t

/-- The deny-list terms of the `ban` regex (line 70), lower-cased; the source
lists `batch` twice, which is kept here for fidelity (it is harmless). -/
def banTerms : List (List Char) :=
  ["total".toList, "date".toList, "time".toList, "invoice".toList,
   "batch".toList, "approval".toList, "trans id".toList, "customer".toList,
   "wechat".toList, "visa".toList, "master".toList, "sale".toList,
   "receipt".toList, "store".toList, "cashier".toList, "host".toList,
   "mid".toList, "tid".toList, "batch".toList]

/-- `ban.test(s)`: case-insensitive unanchored search, i.e. the folded line
contains some deny term as a substring. -/
def banHit (s : List Char) : Bool :=
  banTerms.any (fun t => containsL t (s.map foldC))

/-- `/[A-Za-z]/.test(s)`. -/
def hasAlpha (s : List Char) : Bool := s.any Char.isAlpha

/-- JavaScript `s.length` counts UTF-16 code units: astral code points count
twice. -/
def jsLen (s : List Char) : Nat :=
  s.foldl (fun a c => a + (if c.toNat < 0x10000 then 1 else 2)) 0

/-- The merchant-candidate test of the loop body (line 74):
`!ban.test(s) && /[A-Za-z]/.test(s) && s.length >= 3`. -/
def isCand (s : List Char) : Bool :=
  !banHit s && hasAlpha s && decide (3 ≤ jsLen s)

/-- Character kept by `s.replace(/[^\w\s\-\&\.\,]/g, "")`. -/
def keepC (c : Char) : Bool :=
  isWordC c || isWsC c || c == '-' || c == '&' || c == '.' || c == ','

/-- `s.replace(/[^\w\s\-\&\.\,]/g, "").slice(0, 60)` (line 75).  Every kept
character is in the Basic Multilingual Plane, so taking 60 characters agrees
with slicing 60 UTF-16 code units. -/
def sanitize (s : List Char) : List Char :=
  (s.filter keepC).take 60

/-- The merchant loop (lines 71-78): scan the first `min(6, lines.length)`
lines, take the first candidate, sanitize it; default `"-"`. -/
def findMerchant (ls : List (List Char)) : List Char :=
  match (ls.take 6).find? isCand with
  | some s => sanitize s
  | none => "-".toList

/-- Match the numeric token `[0-9]+[.,][0-9]{2}` at the head of `cs`:
a maximal nonempty digit run, one separator, exactly two digits.  Returns the
captured token and the remainder.  (Taking fewer than the maximal digits
cannot help a backtracking engine here: the separator position would then
hold a digit, which `[.,]` rejects — so this deterministic parse is the
engine's behaviour.) -/
def parseTokenAt (cs : List Char) : Option (List Char × List Char) :=
  let ds := cs.takeWhile Char.isDigit
  match cs.dropWhile Char.isDigit with
  | c :: d1 :: d2 :: rest =>
    if !ds.isEmpty && (c == '.' || c == ',') && d1.isDigit && d2.isDigit then
      some (ds ++ [c, d1, d2], rest)
    else none
  | _ => none

/-- `\s*` followed by the numeric token, capture only (used where nothing
follows the capturing group, so the remainder is irrelevant). -/
def tokenAfterWs (cs : List Char) : Option (List Char) :=
  match parseTokenAt (cs.dropWhile isWsC) with
  | some (tok, _) => some tok
  | none => none

/-- The optional currency-marker alternation `(?:SGD|HKD|CNY|USD|S\$|\$|RM)?`
of patterns 1 and 2, folded for the `i` flag, in source order. -/
def markers : List (List Char) :=
  ["sgd".toList, "hkd".toList, "cny".toList, "usd".toList,
   "s$".toList, "$".toList, "rm".toList]

/-- Try each marker alternative in order (backtracking into the next one if
the rest of the pattern fails), then the empty alternative of `?`, each
followed by `\s*` and the numeric token. -/
def tryMarkers : List (List Char) → List Char → Option (List Char)
  | [], cs => tokenAfterWs cs
  | m :: ms, cs =>
    if m.isPrefixOf cs then
      match tokenAfterWs (cs.drop m.length) with
      | some t => some t
      | none => tryMarkers ms cs
    else tryMarkers ms cs

/-- Backtracking over the length of a greedy `[:\s]+`: try consuming
`n, n-1, …, 1` characters of `cs` and run the continuation `f` on the rest. -/
def tryFromLen (cs : List Char) (f : List Char → Option (List Char)) :
    Nat → Option (List Char)
  | 0 => none
  | Nat.succ k =>
    match f (cs.drop (k + 1)) with
    | some t => some t
    | none => tryFromLen cs f k

/-- Character class `[:\s]`. -/
def isColonWs (c : Char) : Bool := c == ':' || isWsC c

/-- `[:\s]+(?:SGD|HKD|CNY|USD|S\$|\$|RM)?\s*([0-9]+[.,][0-9]{2})`, greedy on
the run with full backtracking. -/
def tryColonWsThen (cs : List Char) : Option (List Char) :=
  tryFromLen cs (fun r => tryMarkers markers r) ((cs.takeWhile isColonWs).length)

/-- `[:\s]+([0-9]+[.,][0-9]{2})` (pattern 3 has no optional marker). -/
def tryColonWsTok (cs : List Char) : Option (List Char) :=
  tryFromLen cs
    (fun r =>
      match parseTokenAt r with
      | some (tok, _) => some tok
      | none => none)
    ((cs.takeWhile isColonWs).length)

/-- Pattern 1, `/TOTAL[:\s]+(?:SGD|HKD|CNY|USD|S\$|\$|RM)?\s*([0-9]+[.,][0-9]{2})/i`,
tried at one start position of the folded line. -/
def pat1At (fs : List Char) : Option (List Char) :=
  if "total".toList.isPrefixOf fs then tryColonWsThen (fs.drop 5) else none

/-- Pattern 2, `/(AMOUNT|AMT|AMOUNT DUE)[:\s]+(?:SGD|HKD|CNY|USD|S\$|\$|RM)?\s*([0-9]+[.,][0-9]{2})/i`,
tried at one start position: the three keyword alternatives in source order,
each backtracked into when the continuation fails. -/
def pat2At (fs : List Char) : Option (List Char) :=
  match (if "amount".toList.isPrefixOf fs then tryColonWsThen (fs.drop 6) else none) with
  | some t => some t
  | none =>
    match (if "amt".toList.isPrefixOf fs then tryColonWsThen (fs.drop 3) else none) with
    | some t => some t
    | none =>
      if "amount due".toList.isPrefixOf fs then tryColonWsThen (fs.drop 10) else none

/-- One alternative `cur` of pattern 3's leading `(CNY|SGD|USD)`, then
`\s*AMOUNT[:\s]+([0-9]+[.,][0-9]{2})`. -/
def curBranch (cur : List Char) (fs : List Char) : Option (List Char) :=
  if cur.isPrefixOf fs then
    let r := (fs.drop cur.length).dropWhile isWsC
    if "amount".toList.isPrefixOf r then tryColonWsTok (r.drop 6) else none
  else none

/-- Pattern 3, `/(CNY|SGD|USD)\s*AMOUNT[:\s]+([0-9]+[.,][0-9]{2})/i`, at one
start position. -/
def pat3At (fs : List Char) : Option (List Char) :=
  match curBranch "cny".toList fs with
  | some t => some t
  | none =>
    match curBranch "sgd".toList fs with
    | some t => some t
    | none => curBranch "usd".toList fs

/-- Try a position-local matcher at every start position, leftmost first
(including the empty position at the end of the line, as a regex engine
does). -/
def scanSuffixes (f : List Char → Option (List Char)) : List Char → Option (List Char)
  | [] => f []
  | c :: t =>
    match f (c :: t) with
    | some r => some r
    | none => scanSuffixes f t

/-- Word-character test for `\b`, with `none` standing for a string edge. -/
def isWordB : Option Char → Bool
  | none => false
  | some c => isWordC c

/-- Pattern 4, `/\b(?:S\$|\$)\s*([0-9]+[.,][0-9]{2})\b/` (case-sensitive), at
one start position; `prevC` is the character before the position.  The two
symbol alternatives are mutually exclusive at a fixed position, the
quantifiers after them are deterministic (see `parseTokenAt`), and the
trailing `\b` sits after the two digits, whose last character is always a
word character. -/
def pat4At (prevC : Option Char) (cs : List Char) : Option (List Char) :=
  if xor (isWordB prevC) (isWordB cs.head?) then
    match (match cs with
           | 'S' :: '$' :: r => some r
           | '$' :: r => some r
           | _ => none) with
    | some r =>
      match parseTokenAt (r.dropWhile isWsC) with
      | some (tok, rest) => if isWordB rest.head? then none else some tok
      | none => none
    | none => none
  else none

/-- Scan pattern 4 over all start positions of the original line, tracking
the previous character for the leading word boundary. -/
def pat4From (prevC : Option Char) : List Char → Option (List Char)
  | [] => pat4At prevC []
  | c :: t =>
    match pat4At prevC (c :: t) with
    | some r => some r
    | none => pat4From (some c) t

/-- `line.match(candidates[0])` capture (folded line: `i` flag; the captured
token consists of digits and separators, which folding leaves unchanged). -/
def pat1 (line : List Char) : Option (List Char) :=
  scanSuffixes pat1At (line.map foldC)

/-- `line.match(candidates[1])` capture. -/
def pat2 (line : List Char) : Option (List Char) :=
  scanSuffixes pat2At (line.map foldC)

/-- `line.match(candidates[2])` capture. -/
def pat3 (line : List Char) : Option (List Char) :=
  scanSuffixes pat3At (line.map foldC)

/-- `line.match(candidates[3])` capture (no `i` flag: matched on the
original line). -/
def pat4 (line : List Char) : Option (List Char) :=
  pat4From none line

/-- The inner loop over `candidates` (lines 90-101): the first pattern, in
array order, that matches the line; the extracted `m[m.length - 1]` is in
every pattern the final capturing group, the numeric token. -/
def matchCand (line : List Char) : Option (List Char) :=
  match pat1 line with
  | some t => some t
  | none =>
    match pat2 line with
    | some t => some t
    | none =>
      match pat3 line with
      | some t => some t
      | none => pat4 line

/-- The outer loop over `lines` (lines 89-103): first line on which some
pattern matches wins, and scanning stops (`if (amount != null) break`).
Returns the matched line and the captured token. -/
def scanAmount : List (List Char) → Option (List Char × List Char)
  | [] => none
  | l :: ls =>
    match matchCand l with
    | some tok => some (l, tok)
    | none => scanAmount ls

/-- `ds` read as a decimal integer (each `c` a digit). -/
def digitsVal (ds : List Char) : Nat :=
  ds.foldl (fun a c => 10 * a + (c.toNat - 48)) 0

/-- `val.replace(",", "")`: remove the first comma, if any (a string first
argument to `replace` substitutes only the first occurrence). -/
def removeComma : List Char → List Char
  | [] => []
  | c :: t => if c = ',' then t else c :: removeComma t

/-- `parseFloat` on the strings that can reach it here (digits, optionally
followed by `.` and digits): integer part plus fractional part. -/
def ratOfTok (cs : List Char) : ℚ :=
  let ip := cs.takeWhile Char.isDigit
  let r := cs.dropWhile Char.isDigit
  if r.head? = some '.' then
    (digitsVal ip : ℚ) +
      (digitsVal ((r.drop 1).takeWhile Char.isDigit) : ℚ) /
        (10 : ℚ) ^ ((r.drop 1).takeWhile Char.isDigit).length
  else (digitsVal ip : ℚ)

/-- `parseFloat(val.replace(",", ""))` (line 94). -/
def tokValue (tok : List Char) : ℚ := ratOfTok (removeComma tok)

/-- The currency chain of lines 95-97 followed by the record-level default
`currency || "SGD"` (line 107): `/CNY/i`, then `/SGD|S\$/i`, then `/\$/`,
else the default. -/
def inferCurrency (line : List Char) : List Char :=
  if containsL "cny".toList (line.map foldC) then "CNY".toList
  else if containsL "sgd".toList (line.map foldC) ||
          containsL "s$".toList (line.map foldC) then "SGD".toList
  else if line.any (fun c => c == '$') then "SGD".toList
  else "SGD".toList

/-- The extraction result (lines 105-110).  `matched` is the diagnostic
field `debug.matched`. -/
structure Receipt where
  merchant : List Char
  currency : List Char
  amount : ℚ
  matched : List Char
deriving DecidableEq, Repr

/-- Assembly of the returned record: with a match, currency/amount/matched
come from the matched line and token; without one, the defaults
`currency || "SGD"`, `amount ?? 0`, `matched = ""` apply. -/
def buildReceipt (merchant : List Char) :
    Option (List Char × List Char) → Receipt
  | some (line, tok) => ⟨merchant, inferCurrency line, tokValue tok, line⟩
  | none => ⟨merchant, "SGD".toList, 0, []⟩

/-- `parseReceipt` (lines 66-111 of server.js). -/
def parseReceipt (text : List Char) : Receipt :=
  buildReceipt (findMerchant (normLines text)) (scanAmount (normLines text))

/-! ### Helper lemmas -/

theorem buildReceipt_merchant (m : List Char)
    (o : Option (List Char × List Char)) : (buildReceipt m o).merchant = m := by
  cases o with
  | none => rfl
  | some p => cases p; rfl

theorem ratOfTok_nonneg (cs : List Char) : 0 ≤ ratOfTok cs := by
  simp only [ratOfTok]
  split <;> positivity

theorem inferCurrency_length (line : List Char) :
    (inferCurrency line).length = 3 := by
  unfold inferCurrency
  split_ifs <;> rfl

theorem sanitize_length_le (s : List Char) : (sanitize s).length ≤ 60 := by
  unfold sanitize
  rw [List.length_take]
  exact min_le_left _ _

theorem sanitize_length_pos (s : List Char) (h : hasAlpha s = true) :
    1 ≤ (sanitize s).length := by
  unfold sanitize
  rcases List.any_eq_true.mp h with ⟨c, hc, hca⟩
  have hk : keepC c = true := by simp [keepC, isWordC, hca]
  have hmem : c ∈ s.filter keepC := List.mem_filter.mpr ⟨hc, hk⟩
  have hpos : 0 < (s.filter keepC).length :=
    List.length_pos.mpr (List.ne_nil_of_mem hmem)
  rw [List.length_take]
  exact le_min (by norm_num) hpos

theorem findMerchant_eq_of_none (ls : List (List Char))
    (h : (ls.take 6).find? isCand = none) : findMerchant ls = "-".toList := by
  unfold findMerchant
  rw [h]

theorem findMerchant_eq_of_some (ls : List (List Char)) (s : List Char)
    (h : (ls.take 6).find? isCand = some s) : findMerchant ls = sanitize s := by
  unfold findMerchant
  rw [h]

theorem findMerchant_length (ls : List (List Char)) :
    1 ≤ (findMerchant ls).length ∧ (findMerchant ls).length ≤ 60 := by
  cases hf : (ls.take 6).find? isCand with
  | none => rw [findMerchant_eq_of_none ls hf]; exact ⟨by decide, by decide⟩
  | some s =>
    rw [findMerchant_eq_of_some ls s hf]
    have hc := List.find?_some hf
    simp only [isCand, Bool.and_eq_true] at hc
    exact ⟨sanitize_length_pos s hc.1.2, sanitize_length_le s⟩

theorem removeComma_of_no_comma (ds es : List Char)
    (h : ∀ c ∈ ds, ¬ c = ',') :
    removeComma (ds ++ ',' :: es) = ds ++ es := by
  induction ds with
  | nil => simp [removeComma]
  | cons c t ih =>
    have hc : ¬ c = ',' := h c (List.mem_cons_self _ _)
    simp [removeComma, hc, ih (fun x hx => h x (List.mem_cons_of_mem _ hx))]

theorem ratOfTok_all_digits (l : List Char)
    (h : ∀ c ∈ l, c.isDigit = true) : ratOfTok l = (digitsVal l : ℚ) := by
  have ht : l.takeWhile Char.isDigit = l := List.takeWhile_eq_self_iff.mpr h
  have hd : l.dropWhile Char.isDigit = [] := List.dropWhile_eq_nil_iff.mpr h
  simp [ratOfTok, ht, hd]

theorem removeComma_eq_self (l : List Char) (h : ∀ c ∈ l, ¬ c = ',') :
    removeComma l = l := by
  induction l with
  | nil => rfl
  | cons c t ih =>
    have hc : ¬ c = ',' := h c (List.mem_cons_self _ _)
    simp [removeComma, hc, ih (fun x hx => h x (List.mem_cons_of_mem _ hx))]

theorem takeWhile_append_eq (p : Char → Bool) (ds r : List Char)
    (h1 : ∀ c ∈ ds, p c = true) (c : Char) (hc : p c = false) :
    (ds ++ c :: r).takeWhile p = ds ∧ (ds ++ c :: r).dropWhile p = c :: r := by
  induction ds with
  | nil => simp [List.takeWhile_cons, List.dropWhile_cons, hc]
  | cons d t ih =>
    have hd : p d = true := h1 d (List.mem_cons_self _ _)
    have iht := ih (fun x hx => h1 x (List.mem_cons_of_mem _ hx))
    simp [List.takeWhile_cons, List.dropWhile_cons, hd, iht.1, iht.2]

theorem tokValue_dot (ds fr : List Char)
    (hds : ∀ c ∈ ds, c.isDigit = true) (hfr : ∀ c ∈ fr, c.isDigit = true) :
    tokValue (ds ++ '.' :: fr) =
      (digitsVal ds : ℚ) + (digitsVal fr : ℚ) / (10 : ℚ) ^ fr.length := by
  unfold tokValue
  have hnc : ∀ c ∈ ds ++ '.' :: fr, ¬ c = ',' := by
    intro c hcm
    rcases List.mem_append.mp hcm with h1 | h2
    · intro he
      have hv := hds c h1
      rw [he] at hv
      exact absurd hv (by decide)
    · rcases List.mem_cons.mp h2 with he | h3
      · subst he; decide
      · intro he
        have hv := hfr c h3
        rw [he] at hv
        exact absurd hv (by decide)
  rw [removeComma_eq_self _ hnc]
  have hsplit := takeWhile_append_eq Char.isDigit ds fr hds '.' (by decide)
  have hfr2 : fr.takeWhile Char.isDigit = fr := List.takeWhile_eq_self_iff.mpr hfr
  simp [ratOfTok, hsplit.1, hsplit.2, hfr2]

/-! ### Claim theorems -/

/-- C1 counterexample: the claim says the comma separator of a matched token
is normalized to a period, so that the line `TOTAL: 12,50` yields 12.50.  In
the code `val.replace(",", "")` deletes the comma instead, and the line
yields 1250. -/
theorem c1_counterexample :
    (parseReceipt "TOTAL: 12,50".toList).amount = 1250 ∧
    (parseReceipt "TOTAL: 12,50".toList).amount ≠ 25 / 2 := by
  have hs : scanAmount (normLines "TOTAL: 12,50".toList) =
      some ("TOTAL: 12,50".toList, "12,50".toList) := by decide
  have hamt : tokValue "12,50".toList = 1250 := by
    unfold tokValue
    have e : removeComma "12,50".toList = "1250".toList := by decide
    rw [e, ratOfTok_all_digits _ (by decide),
      show digitsVal "1250".toList = 1250 from by decide]
    norm_num
  constructor
  · simp only [parseReceipt, hs, buildReceipt]
    exact hamt
  · simp only [parseReceipt, hs, buildReceipt]
    rw [hamt]
    norm_num

/-- C1 (amended): for every matched amount token of the form digits, a comma
separator, and digits, the extractor removes the comma (it does not replace
it with a period) and parses the remaining string, so the resulting amount is
the concatenated digit string read as an integer (1250 for `12,50`). -/
theorem c1_amount_comma_removed (text line tok ds es : List Char)
    (h : scanAmount (normLines text) = some (line, tok))
    (htok : tok = ds ++ ',' :: es)
    (hds : ∀ c ∈ ds, c.isDigit = true) (hes : ∀ c ∈ es, c.isDigit = true) :
    (parseReceipt text).amount = (digitsVal (ds ++ es) : ℚ) := by
  subst htok
  simp only [parseReceipt, h, buildReceipt, tokValue]
  have hnc : ∀ c ∈ ds, ¬ c = ',' := by
    intro c hc heq
    have hd := hds c hc
    rw [heq] at hd
    exact absurd hd (by decide)
  rw [removeComma_of_no_comma ds es hnc]
  refine ratOfTok_all_digits (ds ++ es) ?_
  intro c hc
  rcases List.mem_append.mp hc with h1 | h2
  · exact hds c h1
  · exact hes c h2

/-- C1 witness: on `TOTAL: 12,50` the amended rule gives amount 1250. -/
theorem c1_witness : (parseReceipt "TOTAL: 12,50".toList).amount = 1250 := by
  have h := c1_amount_comma_removed "TOTAL: 12,50".toList
      "TOTAL: 12,50".toList "12,50".toList "12".toList "50".toList
      (by decide) (by decide) (by decide) (by decide)
  exact h.trans (by decide)

/-- C2 counterexample: on `"STORE NAME\nDATE: 01/01/2024\nTOTAL: 12.00"` the
merchant is not `"STORE NAME"`: that line contains the deny term `store`
(case-insensitively), so it is disqualified. -/
theorem c2_counterexample :
    (parseReceipt "STORE NAME\nDATE: 01/01/2024\nTOTAL: 12.00".toList).merchant ≠
      "STORE NAME".toList := by
  decide

/-- C2 (amended): on that input every line hits the deny list (`store`,
`date`, `total`), so merchant is the default `"-"`; the amount is still
parsed from the `TOTAL` line as 12.00 with the default currency `SGD`. -/
theorem c2_example_run :
    parseReceipt "STORE NAME\nDATE: 01/01/2024\nTOTAL: 12.00".toList =
      ⟨"-".toList, "SGD".toList, 12, "TOTAL: 12.00".toList⟩ := by
  have hs : scanAmount (normLines "STORE NAME\nDATE: 01/01/2024\nTOTAL: 12.00".toList) =
      some ("TOTAL: 12.00".toList, "12.00".toList) := by decide
  have hm : findMerchant (normLines "STORE NAME\nDATE: 01/01/2024\nTOTAL: 12.00".toList) =
      "-".toList := by decide
  have hcur : inferCurrency "TOTAL: 12.00".toList = "SGD".toList := by decide
  have hamt : tokValue "12.00".toList = 12 := by
    have e : ("12.00".toList : List Char) = "12".toList ++ '.' :: "00".toList := by decide
    rw [e, tokValue_dot "12".toList "00".toList (by decide) (by decide),
      show digitsVal "12".toList = 12 from by decide,
      show digitsVal "00".toList = 0 from by decide]
    norm_num
  simp only [parseReceipt, hs, hm, buildReceipt, hcur, hamt]

/-- C3 counterexample: the claim says a line consisting of `"$5.00"` (the
`$` preceded by no word character) yields amount 5.00; in fact pattern 4
starts with `\b`, and between a string edge and the non-word character `$`
there is no word boundary, so nothing matches and the amount is the default
0. -/
theorem c3_counterexample :
    (parseReceipt "$5.00".toList).amount = 0 ∧
    (parseReceipt "$5.00".toList).amount ≠ 5 := by
  decide

/-- C3 (amended): the fallback pattern requires a word boundary before the
`S$`/`$` symbol.  A bare `$` at the start of a line (or after a non-word
character) does not match — `"$5.00"` yields amount 0 — while `"S$5.00"`
(boundary before the word character `S`) and `"x$5.00"` (boundary between
the word character `x` and `$`) both match and yield amount 5.00. -/
theorem c3_fallback_boundary :
    (parseReceipt "$5.00".toList).amount = 0 ∧
    (parseReceipt "S$5.00".toList).amount = 5 ∧
    (parseReceipt "x$5.00".toList).amount = 5 := by
  have hamt : tokValue "5.00".toList = 5 := by
    have e : ("5.00".toList : List Char) = "5".toList ++ '.' :: "00".toList := by decide
    rw [e, tokValue_dot "5".toList "00".toList (by decide) (by decide),
      show digitsVal "5".toList = 5 from by decide,
      show digitsVal "00".toList = 0 from by decide]
    norm_num
  have h1 : scanAmount (normLines "$5.00".toList) = none := by decide
  have h2 : scanAmount (normLines "S$5.00".toList) =
      some ("S$5.00".toList, "5.00".toList) := by decide
  have h3 : scanAmount (normLines "x$5.00".toList) =
      some ("x$5.00".toList, "5.00".toList) := by decide
  refine ⟨?_, ?_, ?_⟩
  · simp only [parseReceipt, h1, buildReceipt]
  · simp only [parseReceipt, h2, buildReceipt]
    exact hamt
  · simp only [parseReceipt, h3, buildReceipt]
    exact hamt

/-- C4: amount detection scans the normalized lines top to bottom; the first
line on which any of the four patterns (tried in their fixed priority order
inside `matchCand`) matches determines the result, lines after it are
irrelevant, and the amount, currency and matched-line fields of the returned
record are computed from that line and its captured token. -/
theorem c4_first_match_wins :
    (∀ pre l suf₁ suf₂ tok,
        (∀ p ∈ pre, matchCand p = none) → matchCand l = some tok →
        scanAmount (pre ++ l :: suf₁) = some (l, tok) ∧
        scanAmount (pre ++ l :: suf₁) = scanAmount (pre ++ l :: suf₂)) ∧
    (∀ text line tok, scanAmount (normLines text) = some (line, tok) →
        (parseReceipt text).amount = tokValue tok ∧
        (parseReceipt text).currency = inferCurrency line ∧
        (parseReceipt text).matched = line) := by
  have key : ∀ pre l suf tok, (∀ p ∈ pre, matchCand p = none) →
      matchCand l = some tok → scanAmount (pre ++ l :: suf) = some (l, tok) := by
    intro pre
    induction pre with
    | nil =>
      intro l suf tok _ hl
      simp [scanAmount, hl]
    | cons p ps ih =>
      intro l suf tok hpre hl
      have hp : matchCand p = none := hpre p (List.mem_cons_self _ _)
      simp only [List.cons_append, scanAmount, hp]
      exact ih l suf tok (fun q hq => hpre q (List.mem_cons_of_mem _ hq)) hl
  constructor
  · intro pre l suf₁ suf₂ tok hpre hl
    exact ⟨key pre l suf₁ tok hpre hl,
      (key pre l suf₁ tok hpre hl).trans (key pre l suf₂ tok hpre hl).symm⟩
  · intro text line tok h
    simp [parseReceipt, h, buildReceipt]

/-- C4 witness: with a non-matching first line, the second line (first
match) fixes the result, and replacing everything after it changes
nothing. -/
theorem c4_witness :
    scanAmount ["DATE 2024".toList, "TOTAL: 1.50".toList, "TOTAL: 9.99".toList] =
      some ("TOTAL: 1.50".toList, "1.50".toList) ∧
    scanAmount ["DATE 2024".toList, "TOTAL: 1.50".toList, "TOTAL: 9.99".toList] =
      scanAmount ["DATE 2024".toList, "TOTAL: 1.50".toList, "AMT: 8.88".toList] :=
  c4_first_match_wins.1 ["DATE 2024".toList] "TOTAL: 1.50".toList
    ["TOTAL: 9.99".toList] ["AMT: 8.88".toList] "1.50".toList
    (by decide) (by decide)

/-- C5: when an amount pattern matched on a line, the returned currency is
determined by that line in this order: `CNY` if the line contains `CNY`
(case-insensitively); else `SGD` if it contains `SGD` or `S$`; else `SGD` if
it contains a `$`; else the record-level default `SGD`. -/
theorem c5_currency_order (text line tok : List Char)
    (h : scanAmount (normLines text) = some (line, tok)) :
    (parseReceipt text).currency =
      (if containsL "cny".toList (line.map foldC) then "CNY".toList
       else if containsL "sgd".toList (line.map foldC) ||
               containsL "s$".toList (line.map foldC) then "SGD".toList
       else if line.any (fun c => c == '$') then "SGD".toList
       else "SGD".toList) := by
  simp [parseReceipt, h, buildReceipt, inferCurrency]

/-- C5 witness: `"AMOUNT DUE: $9.99"` has no SGD/CNY marker, so the bare `$`
rule applies: amount 9.99 and currency `SGD`. -/
theorem c5_witness :
    (parseReceipt "AMOUNT DUE: $9.99".toList).currency = "SGD".toList ∧
    (parseReceipt "AMOUNT DUE: $9.99".toList).amount = 999 / 100 := by
  have hs : scanAmount (normLines "AMOUNT DUE: $9.99".toList) =
      some ("AMOUNT DUE: $9.99".toList, "9.99".toList) := by decide
  constructor
  · have h := c5_currency_order "AMOUNT DUE: $9.99".toList
        "AMOUNT DUE: $9.99".toList "9.99".toList hs
    exact h.trans (by decide)
  · have hamt : tokValue "9.99".toList = 999 / 100 := by
      have e : ("9.99".toList : List Char) = "9".toList ++ '.' :: "99".toList := by decide
      rw [e, tokValue_dot "9".toList "99".toList (by decide) (by decide),
        show digitsVal "9".toList = 9 from by decide,
        show digitsVal "99".toList = 99 from by decide,
        show ("99".toList : List Char).length = 2 from by decide]
      norm_num
    simp only [parseReceipt, hs, buildReceipt]
    exact hamt

/-- C6: the extractor is total by construction and, whenever no line within
the scanned window qualifies as a merchant and no amount pattern matches any
line, the result is exactly the default record
`{merchant := "-", currency := "SGD", amount := 0}` (with empty diagnostic
line). -/
theorem c6_defaults (text : List Char)
    (hm : ∀ l ∈ (normLines text).take 6, isCand l = false)
    (ha : scanAmount (normLines text) = none) :
    parseReceipt text = ⟨"-".toList, "SGD".toList, 0, []⟩ := by
  have hf : ((normLines text).take 6).find? isCand = none :=
    List.find?_eq_none.mpr (fun x hx => by simp [hm x hx])
  simp [parseReceipt, ha, buildReceipt, findMerchant_eq_of_none _ hf]

/-- C6 witness: the empty input yields the default record. -/
theorem c6_witness :
    parseReceipt "".toList = ⟨"-".toList, "SGD".toList, 0, []⟩ :=
  c6_defaults "".toList (by decide) (by decide)

/-- C7: for every input the extractor (a total function) returns a record
with a non-negative amount, a 3-character currency code, and a merchant of
length between 1 and 60. -/
theorem c7_record_wellformed (text : List Char) :
    0 ≤ (parseReceipt text).amount ∧
    (parseReceipt text).currency.length = 3 ∧
    1 ≤ (parseReceipt text).merchant.length ∧
    (parseReceipt text).merchant.length ≤ 60 := by
  refine ⟨?_, ?_, ?_⟩
  · cases hs : scanAmount (normLines text) with
    | none => simp [parseReceipt, hs, buildReceipt]
    | some p =>
      cases p with
      | mk l t =>
        simp only [parseReceipt, hs, buildReceipt, tokValue]
        exact ratOfTok_nonneg _
  · cases hs : scanAmount (normLines text) with
    | none => simp [parseReceipt, hs, buildReceipt]
    | some p =>
      cases p with
      | mk l t =>
        simp only [parseReceipt, hs, buildReceipt]
        exact inferCurrency_length l
  · rw [parseReceipt, buildReceipt_merchant]
    exact findMerchant_length (normLines text)

/-- C8: the merchant field never contains a character outside word
characters, whitespace, hyphen, ampersand, period and comma: every other
character is stripped before assignment, and the default `"-"` also
satisfies the invariant. -/
theorem c8_merchant_charset (text : List Char) (c : Char)
    (h : c ∈ (parseReceipt text).merchant) :
    (isWordC c || isWsC c || c == '-' || c == '&' || c == '.' || c == ',') = true := by
  rw [parseReceipt, buildReceipt_merchant] at h
  cases hf : ((normLines text).take 6).find? isCand with
  | some s =>
    rw [findMerchant_eq_of_some _ s hf] at h
    unfold sanitize at h
    have h2 := List.mem_filter.mp (List.take_subset _ _ h)
    exact h2.2
  | none =>
    rw [findMerchant_eq_of_none _ hf] at h
    have hc : c = '-' := by simpa using h
    subst hc
    decide

/-- C8 witness: `'a'` occurs in the merchant extracted from `"abc"` and is
in the allowed character set. -/
theorem c8_witness :
    (isWordC 'a' || isWsC 'a' || 'a' == '-' || 'a' == '&' || 'a' == '.' ||
      'a' == ',') = true :=
  c8_merchant_charset "abc".toList 'a' (by decide)

/-- C9: the extractor is deterministic — it is a pure function of the input
text, so two invocations on identical text return equal records. -/
theorem c9_deterministic (text : List Char) :
    parseReceipt text = parseReceipt text := rfl

/-- C10: the deny-list test is an unanchored case-insensitive substring
match, so `"Midtown Cafe"` (contains `mid`), `"Wholesale Mart"` (contains
`sale`) and `"Hosteria"` (contains `host`) all hit the deny list and fail
the merchant-candidate test even though each is alphabetic and at least 3
characters long; consequently `"Midtown Cafe"` as a first line leaves the
merchant at the default `"-"`. -/
theorem c10_substring_denylist :
    (banHit "Midtown Cafe".toList = true ∧ isCand "Midtown Cafe".toList = false ∧
      hasAlpha "Midtown Cafe".toList = true ∧ 3 ≤ jsLen "Midtown Cafe".toList) ∧
    (banHit "Wholesale Mart".toList = true ∧ isCand "Wholesale Mart".toList = false ∧
      hasAlpha "Wholesale Mart".toList = true ∧ 3 ≤ jsLen "Wholesale Mart".toList) ∧
    (banHit "Hosteria".toList = true ∧ isCand "Hosteria".toList = false ∧
      hasAlpha "Hosteria".toList = true ∧ 3 ≤ jsLen "Hosteria".toList) ∧
    (parseReceipt "Midtown Cafe".toList).merchant = "-".toList := by
  decide
